import Mathlib

/-!
Shallow embedding of `qrscanner_openCVcode.py` (class `MultiQRCodeScanner`),
a multi-QR-code scanner that classifies decoded payloads as new/duplicate,
records scan events, and writes an Excel report with duplicate rows filled red.

Python dictionaries are modelled as association lists in insertion order,
payloads as lists of Unicode code points, raw symbol data as lists of bytes,
and `bytes.decode('utf-8')` as a strict UTF-8 decoder returning `Option`.
Exceptions caught by the program are modelled with `Option`/`Except`; the
`save_to_excel` I/O failure ("Error saving to Excel") is an external event
modelled by a Boolean parameter threaded through the run.
-/

namespace QRScanner

/-- Decoded payload text: a list of Unicode code points. -/
abbrev Payload := List Nat

/-- Whether a byte is a UTF-8 continuation byte (`0x80..0xBF`). -/
def isCont (b : Nat) : Bool := 0x80 ≤ b && b < 0xC0

/-- Strict UTF-8 decoding of a byte list into code points, mirroring Python's
`bytes.decode('utf-8')`: rejects stray continuation bytes, overlong forms,
surrogates, code points above `0x10FFFF`, and truncated sequences. -/
def utf8Decode : List Nat → Option (List Nat)
  | [] => some []
  | b :: rest =>
    if b < 0x80 then (utf8Decode rest).map (fun cps => b :: cps)
    else if b < 0xC2 then none
    else if b < 0xE0 then
      match rest with
      | [] => none
      | b1 :: rest1 =>
        if isCont b1 then
          (utf8Decode rest1).map (fun cps => ((b - 0xC0) * 64 + (b1 - 0x80)) :: cps)
        else none
    else if b < 0xF0 then
      match rest with
      | b1 :: b2 :: rest2 =>
        if isCont b1 && isCont b2 then
          let cp := (b - 0xE0) * 4096 + (b1 - 0x80) * 64 + (b2 - 0x80)
          if cp < 0x800 || (0xD800 ≤ cp && cp < 0xE000) then none
          else (utf8Decode rest2).map (fun cps => cp :: cps)
        else none
      | _ => none
    else if b < 0xF5 then
      match rest with
      | b1 :: b2 :: b3 :: rest3 =>
        if isCont b1 && isCont b2 && isCont b3 then
          let cp := (b - 0xF0) * 262144 + (b1 - 0x80) * 4096 + (b2 - 0x80) * 64 + (b3 - 0x80)
          if cp < 0x10000 || 0x10FFFF < cp then none
          else (utf8Decode rest3).map (fun cps => cp :: cps)
        else none
      | _ => none
    else none

/-- One decoded symbol as returned by `pyzbar.decode`: raw payload bytes,
symbol type tag, and boundary polygon points. -/
structure Sym where
  data : List Nat
  typ : String
  polygon : List (Int × Int)
deriving DecidableEq

/-- One entry of `self.qr_data`: the dictionary appended by `process_frame`. -/
structure Event where
  timestamp : String
  frame_number : Nat
  qr_content : Payload
  qr_type : String
  status : String
  scan_count : Nat
deriving DecidableEq

/-- The mutable scanner state: `self.captured_codes` (a dict payload → count,
kept in insertion order), `self.qr_data` (the event log), and
`self.frame_count`. -/
structure ScannerState where
  captured_codes : List (Payload × Nat)
  qr_data : List Event
  frame_count : Nat
deriving DecidableEq

/-- The state set up by `__init__`: empty dict, empty log, frame counter 0. -/
def initialScanner : ScannerState := { captured_codes := [], qr_data := [], frame_count := 0 }

/-- Python dict lookup `d[k]` / `d.get(k)` on the association list. -/
def dictLookup (d : List (Payload × Nat)) (k : Payload) : Option Nat :=
  match d with
  | [] => none
  | (k1, v1) :: rest => if k1 = k then some v1 else dictLookup rest k

/-- Python membership test `k in d`. -/
def dictMem (d : List (Payload × Nat)) (k : Payload) : Bool :=
  (dictLookup d k).isSome

/-- Python dict assignment `d[k] = v`: update the existing entry in place, or
append a new entry at the end (insertion order). -/
def dictSet (d : List (Payload × Nat)) (k : Payload) (v : Nat) : List (Payload × Nat) :=
  match d with
  | [] => [(k, v)]
  | (k1, v1) :: rest => if k1 = k then (k, v) :: rest else (k1, v1) :: dictSet rest k v

/-- The body of the `for obj in decoded_objects` loop of `process_frame`,
acting on accumulator `(state, codes_in_frame)`. A symbol whose bytes fail
UTF-8 decoding raises inside the `try`, is caught, and leaves the accumulator
unchanged; otherwise `codes_in_frame` is incremented, `captured_codes[data]`
is set to its previous count plus one (or 1 if absent), and a new event is
appended to `qr_data`. -/
def processSym (ts : String) (acc : ScannerState × Nat) (o : Sym) : ScannerState × Nat :=
  match utf8Decode o.data with
  | none => acc
  | some data =>
    let s := acc.1
    let is_duplicate := dictMem s.captured_codes data
    let codes :=
      if is_duplicate then
        dictSet s.captured_codes data ((dictLookup s.captured_codes data).getD 0 + 1)
      else
        dictSet s.captured_codes data 1
    let ev : Event :=
      { timestamp := ts
        frame_number := s.frame_count
        qr_content := data
        qr_type := o.typ
        status := if is_duplicate then "duplicate" else "new"
        scan_count := (dictLookup codes data).getD 0 }
    ({ captured_codes := codes
       qr_data := s.qr_data ++ [ev]
       frame_count := s.frame_count }, acc.2 + 1)

/-- Overlay colors used by `draw_qr_info`. -/
inductive Color where
  | red
  | green
deriving DecidableEq

/-- The color chosen by `draw_qr_info` for one symbol: nothing is drawn when
the polygon is empty or the payload fails to decode (the inner `except: pass`);
otherwise red when the payload is in `captured_codes`, green when not. -/
def drawColor (s : ScannerState) (o : Sym) : Option Color :=
  if o.polygon = [] then none
  else
    match utf8Decode o.data with
    | some d => some (if dictMem s.captured_codes d then Color.red else Color.green)
    | none => none

/-- The columns of `pd.DataFrame(self.qr_data)`: the dict keys in insertion
order when the list is nonempty, and no columns at all for an empty list. -/
def dfColumns (events : List Event) : List String :=
  if events = [] then []
  else ["timestamp", "frame_number", "qr_content", "qr_type", "status", "scan_count"]

/-- The written workbook: the header row and, per event in log order, the row
values together with whether the red fill was applied to all its cells. -/
structure Report where
  header : List String
  rows : List (Event × Bool)
deriving DecidableEq

/-- The report built by the `try` block of `save_to_excel`: one row per event
in `qr_data` order; the loop over `df['status']` applies the red fill to every
cell of exactly the rows whose status is `'duplicate'`. -/
def buildReport (events : List Event) : Report :=
  { header := dfColumns events
    rows := events.map (fun e => (e, e.status == "duplicate")) }

/-- `save_to_excel`: the whole body is inside `try/except`, mutates no scanner
field, and returns normally in every case. Accessing `df['status']` raises a
`KeyError` when the DataFrame has no `status` column (empty `qr_data`); an
external I/O failure (`ioFails`) likewise lands in the `except` branch. -/
def save_to_excel (ioFails : Bool) (s : ScannerState) : ScannerState × Except String Report :=
  if "status" ∈ dfColumns s.qr_data then
    if ioFails then (s, Except.error "io error")
    else (s, Except.ok (buildReport s.qr_data))
  else (s, Except.error "KeyError: status")

/-- Everything `process_frame` produces besides the returned frame image. -/
structure FrameOutcome where
  state : ScannerState
  codes_in_frame : Nat
  saveCalled : Bool
  saveResult : Option (Except String Report)
  colors : List (Option Color)

/-- `process_frame`: increment `frame_count`, run the symbol loop, draw the
overlay (colors computed against the post-loop `captured_codes`), and call
`save_to_excel` iff `codes_in_frame > 0`. -/
def processFrame (ioFails : Bool) (s : ScannerState) (ts : String) (syms : List Sym) :
    FrameOutcome :=
  let s1 : ScannerState := { s with frame_count := s.frame_count + 1 }
  let r := syms.foldl (processSym ts) (s1, 0)
  let colors := syms.map (drawColor r.1)
  if r.2 > 0 then
    { state := r.1, codes_in_frame := r.2, saveCalled := true
      saveResult := some (save_to_excel ioFails r.1).2, colors := colors }
  else
    { state := r.1, codes_in_frame := r.2, saveCalled := false
      saveResult := none, colors := colors }

/-- One loop iteration's external input in `start_scanning`: the frame's
decoded symbols, the wall-clock timestamp, whether displaying the frame raises
an exception, and whether the operator presses `q` this iteration. -/
structure FrameInput where
  syms : List Sym
  ts : String
  raiseErr : Bool
  quitKey : Bool

/-- Why the `while True` loop of `start_scanning` ended. -/
inductive ExitReason where
  | cameraFail
  | streamEnd
  | userQuit
  | runError
deriving DecidableEq

/-- The `while True` loop of `start_scanning`: an empty input list means the
next `cap.read()` fails (stream end); otherwise the frame is processed, then
`imshow` may raise (caught by the outer `except`), then the key check may
break the loop. -/
def scanLoop (ioFails : Bool) (s : ScannerState) : List FrameInput → ScannerState × ExitReason
  | [] => (s, ExitReason.streamEnd)
  | f :: rest =>
    let out := processFrame ioFails s f.ts f.syms
    if f.raiseErr then (out.state, ExitReason.runError)
    else if f.quitKey then (out.state, ExitReason.userQuit)
    else scanLoop ioFails out.state rest

/-- The observable outcome of `start_scanning`. -/
structure RunResult where
  state : ScannerState
  exit : ExitReason
  released : Bool
  cleanupSaves : Nat
  finalReport : Except String Report

/-- `start_scanning`: `initialize_camera` assigns `self.cap` before checking
`isOpened()`, so `cap` is non-None on every path and the `finally` block
releases it; the `finally` block then calls `save_to_excel` exactly once.
A failed camera open raises before the loop and is caught by the `except`. -/
def start_scanning (ioFails : Bool) (cameraOpens : Bool) (inputs : List FrameInput) :
    RunResult :=
  let capAssigned := true
  let r := if cameraOpens then scanLoop ioFails initialScanner inputs
           else (initialScanner, ExitReason.cameraFail)
  { state := r.1
    exit := r.2
    released := capAssigned
    cleanupSaves := 1
    finalReport := (save_to_excel ioFails r.1).2 }

/-- Modelled from the spec: the `report_trigger_policy` configuration option
(`any-decoded-symbol` vs `only-new-symbols`) that §6 says governs when the
Report Writer fires. The source has no such option. -/
inductive ReportTriggerPolicy where
  | anyDecodedSymbol
  | onlyNewSymbols
deriving DecidableEq

/-- Modelled from the spec: whether a frame's decode results qualify under a
given trigger policy, judged against the ledger state before the frame. -/
def specReportTrigger (pol : ReportTriggerPolicy) (s : ScannerState) (syms : List Sym) : Bool :=
  match pol with
  | ReportTriggerPolicy.anyDecodedSymbol =>
      decide (0 < syms.countP (fun o => (utf8Decode o.data).isSome))
  | ReportTriggerPolicy.onlyNewSymbols =>
      decide (0 < syms.countP (fun o =>
        match utf8Decode o.data with
        | some d => !dictMem s.captured_codes d
        | none => false))

/-- The event appended by one successful iteration of the symbol loop,
expressed against the state before that iteration. -/
def stepEvent (ts : String) (s : ScannerState) (p : Payload) (qt : String) : Event :=
  { timestamp := ts
    frame_number := s.frame_count
    qr_content := p
    qr_type := qt
    status := if dictMem s.captured_codes p then "duplicate" else "new"
    scan_count := (dictLookup s.captured_codes p).getD 0 + 1 }

/-- The state after one successful iteration of the symbol loop, expressed
against the state before that iteration. -/
def stepState (ts : String) (s : ScannerState) (p : Payload) (qt : String) : ScannerState :=
  { captured_codes := dictSet s.captured_codes p ((dictLookup s.captured_codes p).getD 0 + 1)
    qr_data := s.qr_data ++ [stepEvent ts s p qt]
    frame_count := s.frame_count }

/-- Count of events in a log carrying a given payload. -/
def payloadCount (events : List Event) (p : Payload) : Nat :=
  events.countP (fun e => decide (e.qr_content = p))

/-- How many frames the `while True` loop of `start_scanning` processes for a
given input list: every iteration processes its frame first, and an `imshow`
exception or the `q` key ends the loop after that frame. -/
def processedCount : List FrameInput → Nat
  | [] => 0
  | f :: rest => if f.raiseErr then 1 else if f.quitKey then 1 else processedCount rest + 1

/-- Frame-number bookkeeping invariant: the logged frame numbers are
non-decreasing in log order and never exceed the current frame counter. -/
def FrameNumInv (s : ScannerState) : Prop :=
  (s.qr_data.map Event.frame_number).Pairwise (fun a b => a ≤ b) ∧
  ∀ e ∈ s.qr_data, e.frame_number ≤ s.frame_count

/-- The payloads of a symbol list, for symbols that are all assumed to decode
(`[]` stands in for the impossible failure). -/
def decodedPayloads (syms : List Sym) : List Payload :=
  syms.map (fun o => (utf8Decode o.data).getD [])

/-- Feed a sequence of symbols to a freshly constructed scanner, one frame per
symbol, as the scan loop does for a session of one-symbol frames. -/
def feedSyms (syms : List Sym) : ScannerState :=
  syms.foldl (fun s o => (processFrame false s "" [o]).state) initialScanner

/-- A concrete symbol whose payload decodes as the letter A (code point 65). -/
def symA : Sym := { data := [65], typ := "QRCODE", polygon := [(0, 0), (1, 0), (1, 1), (0, 1)] }

/-- A concrete symbol whose payload decodes as the letter B (code point 66). -/
def symB : Sym := { data := [66], typ := "QRCODE", polygon := [(0, 0), (1, 0), (1, 1), (0, 1)] }

/-- A concrete symbol whose single byte `0xFF` is not valid UTF-8. -/
def symBad : Sym := { data := [255], typ := "QRCODE", polygon := [(0, 0), (1, 0), (1, 1), (0, 1)] }

/-- The scanner state after one frame containing only `symA`. -/
def stateAfterA : ScannerState := (processFrame false initialScanner "t1" [symA]).state

/-- The ledger/event-log invariant: each stored count equals the number of
logged events with that payload, and every stored count is at least 1. -/
def Inv (s : ScannerState) : Prop :=
  (∀ p, (dictLookup s.captured_codes p).getD 0 = payloadCount s.qr_data p) ∧
  (∀ p v, dictLookup s.captured_codes p = some v → 1 ≤ v)

/-! ### Dictionary lemmas -/

theorem dictLookup_dictSet_self (d : List (Payload × Nat)) (k : Payload) (v : Nat) :
    dictLookup (dictSet d k v) k = some v := by
  induction d with
  | nil => simp [dictSet, dictLookup]
  | cons hd tl ih =>
    obtain ⟨k1, v1⟩ := hd
    by_cases h : k1 = k <;> simp [dictSet, dictLookup, h, ih]

theorem dictLookup_dictSet_ne (d : List (Payload × Nat)) (k p : Payload) (v : Nat)
    (h : p ≠ k) : dictLookup (dictSet d k v) p = dictLookup d p := by
  induction d with
  | nil => simp [dictSet, dictLookup, Ne.symm h]
  | cons hd tl ih =>
    obtain ⟨k1, v1⟩ := hd
    by_cases h1 : k1 = k
    · subst h1
      simp [dictSet, dictLookup, Ne.symm h]
    · by_cases h2 : k1 = p <;> simp [dictSet, dictLookup, h1, h2, ih, h]

theorem dictMem_eq_false_iff (d : List (Payload × Nat)) (k : Payload) :
    dictMem d k = false ↔ dictLookup d k = none := by
  unfold dictMem
  cases dictLookup d k <;> simp

theorem length_dictSet (d : List (Payload × Nat)) (k : Payload) (v : Nat) :
    (dictSet d k v).length = d.length + (if dictMem d k then 0 else 1) := by
  induction d with
  | nil => simp [dictSet, dictMem, dictLookup]
  | cons hd tl ih =>
    obtain ⟨k1, v1⟩ := hd
    by_cases h : k1 = k
    · simp [dictSet, dictMem, dictLookup, h]
    · simp only [dictSet, if_neg h, List.length_cons, ih, dictMem, dictLookup]
      split <;> omega

/-! ### Symbol-step lemmas -/

theorem processSym_none (ts : String) (acc : ScannerState × Nat) (o : Sym)
    (h : utf8Decode o.data = none) : processSym ts acc o = acc := by
  simp [processSym, h]

theorem processSym_some (ts : String) (s : ScannerState) (c : Nat) (o : Sym) (p : Payload)
    (h : utf8Decode o.data = some p) :
    processSym ts (s, c) o = (stepState ts s p o.typ, c + 1) := by
  by_cases hm : dictMem s.captured_codes p
  · simp [processSym, h, hm, stepEvent, stepState, dictLookup_dictSet_self]
  · have hl : dictLookup s.captured_codes p = none :=
      (dictMem_eq_false_iff s.captured_codes p).mp (Bool.eq_false_iff.mpr hm)
    simp [processSym, h, hm, stepEvent, stepState, dictLookup_dictSet_self, hl]

theorem stepState_lookup_self (ts : String) (s : ScannerState) (p : Payload) (qt : String) :
    dictLookup (stepState ts s p qt).captured_codes p =
      some ((dictLookup s.captured_codes p).getD 0 + 1) := by
  simp [stepState, dictLookup_dictSet_self]

theorem stepState_lookup_ne (ts : String) (s : ScannerState) (p q : Payload) (qt : String)
    (h : q ≠ p) :
    dictLookup (stepState ts s p qt).captured_codes q = dictLookup s.captured_codes q := by
  simp [stepState, dictLookup_dictSet_ne _ _ _ _ h]

theorem stepState_mem_mono (ts : String) (s : ScannerState) (p q : Payload) (qt : String)
    (h : dictMem s.captured_codes q = true) :
    dictMem (stepState ts s p qt).captured_codes q = true := by
  by_cases hpq : q = p
  · subst hpq
    simp [dictMem, stepState_lookup_self]
  · simpa [dictMem, stepState_lookup_ne ts s p q qt hpq] using h

theorem stepState_getD_mono (ts : String) (s : ScannerState) (p q : Payload) (qt : String) :
    (dictLookup s.captured_codes q).getD 0 ≤
      (dictLookup (stepState ts s p qt).captured_codes q).getD 0 := by
  by_cases hpq : q = p
  · subst hpq
    simp [stepState_lookup_self]
  · simp [stepState_lookup_ne ts s p q qt hpq]

theorem payloadCount_append (l1 l2 : List Event) (p : Payload) :
    payloadCount (l1 ++ l2) p = payloadCount l1 p + payloadCount l2 p := by
  simp [payloadCount, List.countP_append]

theorem stepState_inv (ts : String) (s : ScannerState) (p : Payload) (qt : String)
    (h : Inv s) : Inv (stepState ts s p qt) := by
  obtain ⟨hcount, hpos⟩ := h
  constructor
  · intro q
    by_cases hpq : q = p
    · subst hpq
      rw [stepState_lookup_self]
      simp only [stepState, payloadCount_append]
      simp [payloadCount, stepEvent, hcount q]
    · rw [stepState_lookup_ne ts s p q qt hpq]
      simp only [stepState, payloadCount_append]
      simp [payloadCount, stepEvent, hcount q, Ne.symm hpq]
  · intro q v hv
    by_cases hpq : q = p
    · subst hpq
      rw [stepState_lookup_self] at hv
      injection hv with hv
      omega
    · rw [stepState_lookup_ne ts s p q qt hpq] at hv
      exact hpos q v hv

/-! ### Fold lemmas for the symbol loop of `process_frame` -/

theorem foldl_frame_count (ts : String) (syms : List Sym) :
    ∀ (s : ScannerState) (c : Nat),
      (syms.foldl (processSym ts) (s, c)).1.frame_count = s.frame_count := by
  induction syms with
  | nil => intro s c; rfl
  | cons o rest ih =>
    intro s c
    cases h : utf8Decode o.data with
    | none =>
      rw [List.foldl_cons, processSym_none ts (s, c) o h]
      exact ih s c
    | some p =>
      rw [List.foldl_cons, processSym_some ts s c o p h]
      exact ih _ _

theorem foldl_codes_count (ts : String) (syms : List Sym) :
    ∀ (s : ScannerState) (c : Nat),
      (syms.foldl (processSym ts) (s, c)).2 =
        c + syms.countP (fun o => (utf8Decode o.data).isSome) := by
  induction syms with
  | nil => intro s c; simp
  | cons o rest ih =>
    intro s c
    cases h : utf8Decode o.data with
    | none =>
      rw [List.foldl_cons, processSym_none ts (s, c) o h]
      simp [List.countP_cons, h, ih s c]
    | some p =>
      rw [List.foldl_cons, processSym_some ts s c o p h]
      simp only [List.countP_cons, h]
      rw [ih _ _]
      simp +arith

theorem foldl_qr_data (ts : String) (syms : List Sym) :
    ∀ (s : ScannerState) (c : Nat),
      ∃ t, (syms.foldl (processSym ts) (s, c)).1.qr_data = s.qr_data ++ t ∧
        ∀ e ∈ t, e.frame_number = s.frame_count := by
  induction syms with
  | nil => intro s c; exact ⟨[], by simp⟩
  | cons o rest ih =>
    intro s c
    cases h : utf8Decode o.data with
    | none =>
      rw [List.foldl_cons, processSym_none ts (s, c) o h]
      exact ih s c
    | some p =>
      rw [List.foldl_cons, processSym_some ts s c o p h]
      obtain ⟨t, ht, hf⟩ := ih (stepState ts s p o.typ) (c + 1)
      refine ⟨stepEvent ts s p o.typ :: t, ?_, ?_⟩
      · rw [ht]
        simp [stepState]
      · intro e he
        rcases List.mem_cons.mp he with he1 | he2
        · subst he1; rfl
        · simpa [stepState] using hf e he2

theorem foldl_mem_mono (ts : String) (syms : List Sym) :
    ∀ (s : ScannerState) (c : Nat) (q : Payload),
      dictMem s.captured_codes q = true →
      dictMem ((syms.foldl (processSym ts) (s, c)).1).captured_codes q = true := by
  induction syms with
  | nil => intro s c q h; exact h
  | cons o rest ih =>
    intro s c q hq
    cases h : utf8Decode o.data with
    | none =>
      rw [List.foldl_cons, processSym_none ts (s, c) o h]
      exact ih s c q hq
    | some p =>
      rw [List.foldl_cons, processSym_some ts s c o p h]
      exact ih _ _ q (stepState_mem_mono ts s p q o.typ hq)

theorem foldl_getD_mono (ts : String) (syms : List Sym) :
    ∀ (s : ScannerState) (c : Nat) (q : Payload),
      (dictLookup s.captured_codes q).getD 0 ≤
        (dictLookup ((syms.foldl (processSym ts) (s, c)).1).captured_codes q).getD 0 := by
  induction syms with
  | nil => intro s c q; exact le_refl _
  | cons o rest ih =>
    intro s c q
    cases h : utf8Decode o.data with
    | none =>
      rw [List.foldl_cons, processSym_none ts (s, c) o h]
      exact ih s c q
    | some p =>
      rw [List.foldl_cons, processSym_some ts s c o p h]
      exact le_trans (stepState_getD_mono ts s p q o.typ) (ih _ _ q)

theorem foldl_inv (ts : String) (syms : List Sym) :
    ∀ (s : ScannerState) (c : Nat), Inv s →
      Inv (syms.foldl (processSym ts) (s, c)).1 := by
  induction syms with
  | nil => intro s c h; exact h
  | cons o rest ih =>
    intro s c hs
    cases h : utf8Decode o.data with
    | none =>
      rw [List.foldl_cons, processSym_none ts (s, c) o h]
      exact ih s c hs
    | some p =>
      rw [List.foldl_cons, processSym_some ts s c o p h]
      exact ih _ _ (stepState_inv ts s p o.typ hs)

theorem foldl_mem_of_decoded (ts : String) (syms : List Sym) :
    ∀ (s : ScannerState) (c : Nat) (o : Sym) (p : Payload),
      o ∈ syms → utf8Decode o.data = some p →
      dictMem ((syms.foldl (processSym ts) (s, c)).1).captured_codes p = true := by
  induction syms with
  | nil => intro s c o p ho; exact absurd ho (List.not_mem_nil o)
  | cons o1 rest ih =>
    intro s c o p ho hp
    rcases List.mem_cons.mp ho with he | hrest
    · subst he
      rw [List.foldl_cons, processSym_some ts s c o p hp]
      refine foldl_mem_mono ts rest _ _ p ?_
      simp [dictMem, stepState_lookup_self]
    · cases h1 : utf8Decode o1.data with
      | none =>
        rw [List.foldl_cons, processSym_none ts (s, c) o1 h1]
        exact ih s c o p hrest hp
      | some p1 =>
        rw [List.foldl_cons, processSym_some ts s c o1 p1 h1]
        exact ih _ _ o p hrest hp

/-! ### `process_frame` lemmas -/

theorem processFrame_state (io : Bool) (s : ScannerState) (ts : String) (syms : List Sym) :
    (processFrame io s ts syms).state =
      (syms.foldl (processSym ts) ({ s with frame_count := s.frame_count + 1 }, 0)).1 := by
  simp only [processFrame]
  split <;> rfl

theorem processFrame_codes (io : Bool) (s : ScannerState) (ts : String) (syms : List Sym) :
    (processFrame io s ts syms).codes_in_frame =
      syms.countP (fun o => (utf8Decode o.data).isSome) := by
  have hc := foldl_codes_count ts syms { s with frame_count := s.frame_count + 1 } 0
  simp only [processFrame]
  split <;> simpa using hc

theorem processFrame_saveCalled (io : Bool) (s : ScannerState) (ts : String) (syms : List Sym) :
    (processFrame io s ts syms).saveCalled =
      decide (0 < syms.countP (fun o => (utf8Decode o.data).isSome)) := by
  have hc := foldl_codes_count ts syms { s with frame_count := s.frame_count + 1 } 0
  simp only [Nat.zero_add] at hc
  simp only [processFrame]
  split
  case isTrue h =>
    rw [hc] at h
    simp [h]
  case isFalse h =>
    rw [hc] at h
    simp only [not_lt, Nat.le_zero] at h
    simp [h]

theorem processFrame_colors (io : Bool) (s : ScannerState) (ts : String) (syms : List Sym) :
    (processFrame io s ts syms).colors =
      syms.map (drawColor (processFrame io s ts syms).state) := by
  rw [processFrame_state]
  simp only [processFrame]
  split <;> rfl

theorem processFrame_frame_count (io : Bool) (s : ScannerState) (ts : String) (syms : List Sym) :
    (processFrame io s ts syms).state.frame_count = s.frame_count + 1 := by
  rw [processFrame_state]
  exact foldl_frame_count ts syms { s with frame_count := s.frame_count + 1 } 0

theorem processFrame_qr_data (io : Bool) (s : ScannerState) (ts : String) (syms : List Sym) :
    ∃ t, (processFrame io s ts syms).state.qr_data = s.qr_data ++ t ∧
      ∀ e ∈ t, e.frame_number = s.frame_count + 1 := by
  rw [processFrame_state]
  exact foldl_qr_data ts syms { s with frame_count := s.frame_count + 1 } 0

theorem processFrame_mem_mono (io : Bool) (s : ScannerState) (ts : String) (syms : List Sym)
    (q : Payload) (h : dictMem s.captured_codes q = true) :
    dictMem (processFrame io s ts syms).state.captured_codes q = true := by
  rw [processFrame_state]
  exact foldl_mem_mono ts syms { s with frame_count := s.frame_count + 1 } 0 q h

theorem processFrame_getD_mono (io : Bool) (s : ScannerState) (ts : String) (syms : List Sym)
    (q : Payload) :
    (dictLookup s.captured_codes q).getD 0 ≤
      (dictLookup (processFrame io s ts syms).state.captured_codes q).getD 0 := by
  rw [processFrame_state]
  exact foldl_getD_mono ts syms { s with frame_count := s.frame_count + 1 } 0 q

theorem processFrame_inv (io : Bool) (s : ScannerState) (ts : String) (syms : List Sym)
    (h : Inv s) : Inv (processFrame io s ts syms).state := by
  rw [processFrame_state]
  exact foldl_inv ts syms { s with frame_count := s.frame_count + 1 } 0 h

theorem processFrame_mem_of_decoded (io : Bool) (s : ScannerState) (ts : String)
    (syms : List Sym) (o : Sym) (p : Payload) (ho : o ∈ syms)
    (hp : utf8Decode o.data = some p) :
    dictMem (processFrame io s ts syms).state.captured_codes p = true := by
  rw [processFrame_state]
  exact foldl_mem_of_decoded ts syms { s with frame_count := s.frame_count + 1 } 0 o p ho hp

theorem processFrame_state_io (io io2 : Bool) (s : ScannerState) (ts : String)
    (syms : List Sym) :
    (processFrame io s ts syms).state = (processFrame io2 s ts syms).state := by
  rw [processFrame_state, processFrame_state]

/-! ### Scan-loop lemmas -/

theorem scanLoop_frame_count (io : Bool) (inputs : List FrameInput) :
    ∀ s : ScannerState,
      (scanLoop io s inputs).1.frame_count = s.frame_count + processedCount inputs := by
  induction inputs with
  | nil => intro s; simp [scanLoop, processedCount]
  | cons f rest ih =>
    intro s
    unfold scanLoop processedCount
    by_cases h1 : f.raiseErr
    · simp [h1, processFrame_frame_count]
    · by_cases h2 : f.quitKey
      · simp [h1, h2, processFrame_frame_count]
      · simp only [h1, h2, if_false, Bool.false_eq_true]
        rw [ih, processFrame_frame_count]
        omega

theorem scanLoop_inv (io : Bool) (inputs : List FrameInput) :
    ∀ s : ScannerState, Inv s → Inv (scanLoop io s inputs).1 := by
  induction inputs with
  | nil => intro s h; exact h
  | cons f rest ih =>
    intro s hs
    unfold scanLoop
    by_cases h1 : f.raiseErr
    · simpa [h1] using processFrame_inv io s f.ts f.syms hs
    · by_cases h2 : f.quitKey
      · simpa [h1, h2] using processFrame_inv io s f.ts f.syms hs
      · simp only [h1, h2, if_false, Bool.false_eq_true]
        exact ih _ (processFrame_inv io s f.ts f.syms hs)

theorem processFrame_frameNumInv (io : Bool) (s : ScannerState) (ts : String)
    (syms : List Sym) (h : FrameNumInv s) : FrameNumInv (processFrame io s ts syms).state := by
  obtain ⟨hpw, hub⟩ := h
  obtain ⟨t, ht, hft⟩ := processFrame_qr_data io s ts syms
  have hfc := processFrame_frame_count io s ts syms
  constructor
  · rw [ht, List.map_append, List.pairwise_append]
    refine ⟨hpw, ?_, ?_⟩
    · refine List.pairwise_of_forall_mem_list ?_
      intro a ha b hb
      obtain ⟨ea, hea, rfl⟩ := List.mem_map.mp ha
      obtain ⟨eb, heb, rfl⟩ := List.mem_map.mp hb
      rw [hft ea hea, hft eb heb]
    · intro a ha b hb
      obtain ⟨ea, hea, rfl⟩ := List.mem_map.mp ha
      obtain ⟨eb, heb, rfl⟩ := List.mem_map.mp hb
      have h1 := hub ea hea
      rw [hft eb heb]
      omega
  · intro e he
    rw [ht] at he
    rw [hfc]
    rcases List.mem_append.mp he with h1 | h2
    · have := hub e h1; omega
    · rw [hft e h2]

theorem scanLoop_frameNumInv (io : Bool) (inputs : List FrameInput) :
    ∀ s : ScannerState, FrameNumInv s → FrameNumInv (scanLoop io s inputs).1 := by
  induction inputs with
  | nil => intro s h; exact h
  | cons f rest ih =>
    intro s hs
    unfold scanLoop
    by_cases h1 : f.raiseErr
    · simpa [h1] using processFrame_frameNumInv io s f.ts f.syms hs
    · by_cases h2 : f.quitKey
      · simpa [h1, h2] using processFrame_frameNumInv io s f.ts f.syms hs
      · simp only [h1, h2, if_false, Bool.false_eq_true]
        exact ih _ (processFrame_frameNumInv io s f.ts f.syms hs)

theorem withFC_codes (s : ScannerState) (n : Nat) :
    ({ s with frame_count := n } : ScannerState).captured_codes = s.captured_codes := rfl

theorem withFC_qr (s : ScannerState) (n : Nat) :
    ({ s with frame_count := n } : ScannerState).qr_data = s.qr_data := rfl

theorem processFrame_saveResult (io : Bool) (s : ScannerState) (ts : String) (syms : List Sym) :
    (processFrame io s ts syms).saveResult =
      (if (processFrame io s ts syms).saveCalled then
        some (save_to_excel io (processFrame io s ts syms).state).2
      else none) := by
  simp only [processFrame]
  split <;> simp

theorem scanLoop_io_independent (io io2 : Bool) (inputs : List FrameInput) :
    ∀ s : ScannerState, scanLoop io s inputs = scanLoop io2 s inputs := by
  induction inputs with
  | nil => intro s; rfl
  | cons f rest ih =>
    intro s
    unfold scanLoop
    by_cases h1 : f.raiseErr
    · simp [h1, processFrame_state_io io io2 s f.ts f.syms]
    · by_cases h2 : f.quitKey
      · simp [h1, h2, processFrame_state_io io io2 s f.ts f.syms]
      · simp only [h1, h2, if_false, Bool.false_eq_true]
        rw [processFrame_state_io io io2 s f.ts f.syms, ih]

theorem foldl_undecodable (ts : String) (syms : List Sym)
    (h : ∀ o ∈ syms, utf8Decode o.data = none) :
    ∀ acc : ScannerState × Nat, syms.foldl (processSym ts) acc = acc := by
  induction syms with
  | nil => intro acc; rfl
  | cons o rest ih =>
    intro acc
    rw [List.foldl_cons, processSym_none ts acc o (h o (List.mem_cons_self o rest))]
    exact ih (fun o1 h1 => h o1 (List.mem_cons_of_mem o h1)) acc

theorem processFrame_undecodable (io : Bool) (s : ScannerState) (ts : String) (syms : List Sym)
    (h : ∀ o ∈ syms, utf8Decode o.data = none) :
    (processFrame io s ts syms).state = { s with frame_count := s.frame_count + 1 } := by
  rw [processFrame_state, foldl_undecodable ts syms h]

theorem scanLoop_undecodable (io : Bool) (inputs : List FrameInput) :
    (∀ f ∈ inputs, ∀ o ∈ f.syms, utf8Decode o.data = none) →
    ∀ s : ScannerState, (scanLoop io s inputs).1.qr_data = s.qr_data := by
  induction inputs with
  | nil => intro _ s; rfl
  | cons f rest ih =>
    intro h s
    have hf : ∀ o ∈ f.syms, utf8Decode o.data = none :=
      h f (List.mem_cons_self f rest)
    have hrest : ∀ f1 ∈ rest, ∀ o ∈ f1.syms, utf8Decode o.data = none :=
      fun f1 h1 => h f1 (List.mem_cons_of_mem f h1)
    unfold scanLoop
    by_cases h1 : f.raiseErr
    · simp [h1, processFrame_undecodable io s f.ts f.syms hf, withFC_qr]
    · by_cases h2 : f.quitKey
      · simp [h1, h2, processFrame_undecodable io s f.ts f.syms hf, withFC_qr]
      · simp only [h1, h2, if_false, Bool.false_eq_true]
        rw [ih hrest _, processFrame_undecodable io s f.ts f.syms hf]

theorem inv_mem_iff (s : ScannerState) (h : Inv s) (p : Payload) :
    dictMem s.captured_codes p = true ↔ ∃ e ∈ s.qr_data, e.qr_content = p := by
  obtain ⟨hc, hpos⟩ := h
  constructor
  · intro hm
    obtain ⟨v, hv⟩ := Option.isSome_iff_exists.mp hm
    have h1 := hpos p v hv
    have h2 := hc p
    rw [hv] at h2
    simp only [Option.getD_some] at h2
    have h3 : 0 < payloadCount s.qr_data p := by omega
    obtain ⟨e, he, hep⟩ := List.countP_pos_iff.mp h3
    exact ⟨e, he, of_decide_eq_true hep⟩
  · rintro ⟨e, he, hep⟩
    have h3 : 0 < payloadCount s.qr_data p :=
      List.countP_pos_iff.mpr ⟨e, he, by simp [hep]⟩
    rw [← hc p] at h3
    unfold dictMem
    cases hl : dictLookup s.captured_codes p with
    | none => rw [hl] at h3; simp at h3
    | some v => rfl

theorem inv_initial : Inv initialScanner := by
  constructor
  · intro p
    simp [initialScanner, dictLookup, payloadCount]
  · intro p v hv
    simp [initialScanner, dictLookup] at hv

theorem frameNumInv_initial : FrameNumInv initialScanner := by
  constructor
  · simp [initialScanner]
  · intro e he
    simp [initialScanner] at he

/-! ### Feeding a payload sequence one frame at a time -/

theorem feed_append (syms : List Sym) (o : Sym) :
    feedSyms (syms ++ [o]) = (processFrame false (feedSyms syms) "" [o]).state := by
  unfold feedSyms
  rw [List.foldl_append]
  rfl

theorem processFrame_single (io : Bool) (s : ScannerState) (ts : String) (o : Sym) (p : Payload)
    (h : utf8Decode o.data = some p) :
    (processFrame io s ts [o]).state =
      stepState ts { s with frame_count := s.frame_count + 1 } p o.typ := by
  rw [processFrame_state, List.foldl_cons, processSym_some ts _ 0 o p h]
  rfl

theorem decodedPayloads_append (syms : List Sym) (o : Sym) :
    decodedPayloads (syms ++ [o]) = decodedPayloads syms ++ [(utf8Decode o.data).getD []] := by
  simp [decodedPayloads]

theorem toFinset_append_singleton (ps : List Payload) (p : Payload) :
    (ps ++ [p]).toFinset = insert p ps.toFinset := by
  ext x
  simp [or_comm]

theorem feed_lookup (syms : List Sym) :
    (∀ o ∈ syms, (utf8Decode o.data).isSome = true) →
    ∀ q, dictLookup (feedSyms syms).captured_codes q =
      if 0 < (decodedPayloads syms).count q then some ((decodedPayloads syms).count q)
      else none := by
  induction syms using List.reverseRecOn with
  | nil =>
    intro _ q
    simp [feedSyms, initialScanner, decodedPayloads, dictLookup]
  | append_singleton l o ih =>
    intro hd q
    have hdl : ∀ o1 ∈ l, (utf8Decode o1.data).isSome = true := fun o1 h1 =>
      hd o1 (List.mem_append_left _ h1)
    have hoS : (utf8Decode o.data).isSome = true :=
      hd o (List.mem_append_right _ (List.mem_singleton_self o))
    obtain ⟨p, hp⟩ := Option.isSome_iff_exists.mp hoS
    have hgd : (utf8Decode o.data).getD [] = p := by rw [hp]; rfl
    rw [feed_append, processFrame_single false (feedSyms l) "" o p hp,
      decodedPayloads_append, hgd]
    by_cases hq : q = p
    · subst hq
      rw [stepState_lookup_self, withFC_codes]
      have hcnt : (dictLookup (feedSyms l).captured_codes q).getD 0 =
          (decodedPayloads l).count q := by
        rw [ih hdl q]
        split
        · rfl
        · simp only [Option.getD_none]
          omega
      rw [hcnt]
      simp [List.count_append]
    · rw [stepState_lookup_ne _ _ _ _ _ hq, withFC_codes, ih hdl q]
      have hc2 : (decodedPayloads l ++ [p]).count q = (decodedPayloads l).count q := by
        simp [List.count_append, List.count_singleton, hq]
      rw [hc2]

theorem feed_getD (syms : List Sym) (hd : ∀ o ∈ syms, (utf8Decode o.data).isSome = true)
    (q : Payload) :
    (dictLookup (feedSyms syms).captured_codes q).getD 0 = (decodedPayloads syms).count q := by
  rw [feed_lookup syms hd q]
  split
  · rfl
  · simp only [Option.getD_none]
    omega

theorem feed_mem (syms : List Sym) (hd : ∀ o ∈ syms, (utf8Decode o.data).isSome = true)
    (q : Payload) :
    dictMem (feedSyms syms).captured_codes q = decide (q ∈ decodedPayloads syms) := by
  unfold dictMem
  rw [feed_lookup syms hd q]
  by_cases h : 0 < (decodedPayloads syms).count q
  · simp [h, List.count_pos_iff.mp h]
  · have hnot : q ∉ decodedPayloads syms := fun hmem2 => h (List.count_pos_iff.mpr hmem2)
    simp [h, hnot]

theorem feed_keys_length (syms : List Sym) :
    (∀ o ∈ syms, (utf8Decode o.data).isSome = true) →
    (feedSyms syms).captured_codes.length = (decodedPayloads syms).toFinset.card := by
  induction syms using List.reverseRecOn with
  | nil =>
    intro _
    simp [feedSyms, initialScanner, decodedPayloads]
  | append_singleton l o ih =>
    intro hd
    have hdl : ∀ o1 ∈ l, (utf8Decode o1.data).isSome = true := fun o1 h1 =>
      hd o1 (List.mem_append_left _ h1)
    have hoS : (utf8Decode o.data).isSome = true :=
      hd o (List.mem_append_right _ (List.mem_singleton_self o))
    obtain ⟨p, hp⟩ := Option.isSome_iff_exists.mp hoS
    have hgd : (utf8Decode o.data).getD [] = p := by rw [hp]; rfl
    rw [feed_append, processFrame_single false (feedSyms l) "" o p hp,
      decodedPayloads_append, hgd, toFinset_append_singleton]
    show (dictSet (feedSyms l).captured_codes p _).length = _
    rw [length_dictSet, feed_mem l hdl p, ih hdl]
    by_cases hm : p ∈ decodedPayloads l
    · rw [Finset.insert_eq_self.mpr (List.mem_toFinset.mpr hm)]
      simp [hm]
    · rw [Finset.card_insert_of_not_mem (fun hc => hm (List.mem_toFinset.mp hc))]
      simp [hm]

theorem feed_events (syms : List Sym) :
    (∀ o ∈ syms, (utf8Decode o.data).isSome = true) →
    (feedSyms syms).qr_data.length = syms.length ∧
    ∀ i e q2, (feedSyms syms).qr_data[i]? = some e → (decodedPayloads syms)[i]? = some q2 →
      e.qr_content = q2 ∧
      e.status = (if q2 ∈ (decodedPayloads syms).take i then "duplicate" else "new") ∧
      e.scan_count = ((decodedPayloads syms).take (i + 1)).count q2 := by
  induction syms using List.reverseRecOn with
  | nil =>
    intro _
    refine ⟨rfl, ?_⟩
    intro i e q2 he hq2
    simp [feedSyms, initialScanner] at he
  | append_singleton l o ih =>
    intro hd
    have hdl : ∀ o1 ∈ l, (utf8Decode o1.data).isSome = true := fun o1 h1 =>
      hd o1 (List.mem_append_left _ h1)
    have hoS : (utf8Decode o.data).isSome = true :=
      hd o (List.mem_append_right _ (List.mem_singleton_self o))
    obtain ⟨p, hp⟩ := Option.isSome_iff_exists.mp hoS
    have hgd : (utf8Decode o.data).getD [] = p := by rw [hp]; rfl
    obtain ⟨ihlen, ihev⟩ := ih hdl
    have hps_len : (decodedPayloads l).length = l.length := by simp [decodedPayloads]
    have hstep : feedSyms (l ++ [o]) =
        stepState "" { feedSyms l with frame_count := (feedSyms l).frame_count + 1 } p o.typ := by
      rw [feed_append, processFrame_single false (feedSyms l) "" o p hp]
    have hqr : (feedSyms (l ++ [o])).qr_data = (feedSyms l).qr_data ++
        [stepEvent "" { feedSyms l with frame_count := (feedSyms l).frame_count + 1 } p o.typ] := by
      rw [hstep]
      rfl
    constructor
    · rw [hqr]
      simp [ihlen]
    · intro i e q2 he hq2
      rw [hqr] at he
      rw [decodedPayloads_append, hgd] at hq2 ⊢
      have hi : i < (decodedPayloads l).length + 1 := by
        have := (List.getElem?_eq_some.mp hq2).1
        simpa using this
      rcases Nat.lt_succ_iff_lt_or_eq.mp hi with hlt | heq
      · -- an index into the previously logged events
        have h2old : i < (feedSyms l).qr_data.length := by rw [ihlen, ← hps_len]; exact hlt
        rw [List.getElem?_append, if_pos h2old] at he
        rw [List.getElem?_append, if_pos hlt] at hq2
        have htake1 : (decodedPayloads l ++ [p]).take i = (decodedPayloads l).take i :=
          List.take_append_of_le_length (by omega)
        have htake2 : (decodedPayloads l ++ [p]).take (i + 1) = (decodedPayloads l).take (i + 1) :=
          List.take_append_of_le_length (by omega)
        rw [htake1, htake2]
        exact ihev i e q2 he hq2
      · -- the newly appended event
        subst heq
        have hi_eq : (decodedPayloads l).length = (feedSyms l).qr_data.length := by
          rw [ihlen, hps_len]
        rw [hi_eq] at he
        have hsome : ((feedSyms l).qr_data ++ [stepEvent "" { feedSyms l with
              frame_count := (feedSyms l).frame_count + 1 } p o.typ])[(feedSyms l).qr_data.length]? =
            some (stepEvent "" { feedSyms l with
              frame_count := (feedSyms l).frame_count + 1 } p o.typ) := by
          simp [List.getElem?_append]
        rw [hsome] at he
        have hq2some : (decodedPayloads l ++ [p])[(decodedPayloads l).length]? = some p := by
          simp [List.getElem?_append]
        rw [hq2some] at hq2
        injection he with he
        injection hq2 with hq2
        subst he
        subst hq2
        have htake1 : (decodedPayloads l ++ [p]).take (decodedPayloads l).length =
            decodedPayloads l := by
          rw [List.take_append_of_le_length (le_refl _), List.take_length]
        have htake2 : (decodedPayloads l ++ [p]).take ((decodedPayloads l).length + 1) =
            decodedPayloads l ++ [p] := by
          have hlen2 : ((decodedPayloads l ++ [p]).length) = (decodedPayloads l).length + 1 := by
            simp
          rw [← hlen2, List.take_length]
        rw [htake1, htake2]
        refine ⟨rfl, ?_, ?_⟩
        · show (if dictMem (feedSyms l).captured_codes p then "duplicate" else "new") = _
          rw [feed_mem l hdl p]
          by_cases hm : p ∈ decodedPayloads l
          · simp [hm]
          · simp [hm]
        · show (dictLookup (feedSyms l).captured_codes p).getD 0 + 1 = _
          rw [feed_getD l hdl p]
          simp [List.count_append]

/-! ### Claim theorems -/

/-- C1: for every sequence of successfully decoded payloads fed to a freshly
constructed scanner, one event is logged per payload; the event at position
`i` carries that payload, is classified `"new"` exactly when the payload does
not occur earlier in the sequence and `"duplicate"` otherwise, and its
`scan_count` equals the number of occurrences of the payload up to and
including position `i` (so it is 1 at the first occurrence and one more than
at the previous occurrence thereafter); and the number of distinct ledger keys
equals the number of distinct payloads in the sequence. -/
theorem C1_first_new_then_duplicate (syms : List Sym)
    (hd : ∀ o ∈ syms, (utf8Decode o.data).isSome = true) :
    (feedSyms syms).qr_data.length = syms.length ∧
    (∀ i e q2, (feedSyms syms).qr_data[i]? = some e →
      (decodedPayloads syms)[i]? = some q2 →
      e.qr_content = q2 ∧
      e.status = (if q2 ∈ (decodedPayloads syms).take i then "duplicate" else "new") ∧
      e.scan_count = ((decodedPayloads syms).take (i + 1)).count q2) ∧
    (feedSyms syms).captured_codes.length = (decodedPayloads syms).toFinset.card := by
  obtain ⟨h1, h2⟩ := feed_events syms hd
  exact ⟨h1, h2, feed_keys_length syms hd⟩

/-- Witness for C1 at the concrete session A, B, A. -/
theorem C1_first_new_then_duplicate_witness :
    (feedSyms [symA, symB, symA]).qr_data.length = 3 ∧
    (feedSyms [symA, symB, symA]).captured_codes.length =
      (decodedPayloads [symA, symB, symA]).toFinset.card := by
  have h := C1_first_new_then_duplicate [symA, symB, symA] (by decide)
  exact ⟨h.1, h.2.2⟩

/-- C2: the ledger/event-log invariant (a payload is a `captured_codes` key
iff some event in `qr_data` carries it, and each stored count equals the
number of such events) holds initially and is preserved by every call to
`process_frame`; moreover key membership and per-key counts only grow and
`qr_data` is only appended to. -/
theorem C2_ledger_log_invariant :
    Inv initialScanner ∧
    (∀ io inputs, Inv (scanLoop io initialScanner inputs).1) ∧
    ∀ io s ts syms, Inv s →
      Inv (processFrame io s ts syms).state ∧
      (∀ p, dictMem (processFrame io s ts syms).state.captured_codes p = true ↔
        ∃ e ∈ (processFrame io s ts syms).state.qr_data, e.qr_content = p) ∧
      (∀ p, (dictLookup (processFrame io s ts syms).state.captured_codes p).getD 0 =
        payloadCount (processFrame io s ts syms).state.qr_data p) ∧
      (∀ p, dictMem s.captured_codes p = true →
        dictMem (processFrame io s ts syms).state.captured_codes p = true) ∧
      (∀ p, (dictLookup s.captured_codes p).getD 0 ≤
        (dictLookup (processFrame io s ts syms).state.captured_codes p).getD 0) ∧
      ∃ t, (processFrame io s ts syms).state.qr_data = s.qr_data ++ t := by
  refine ⟨inv_initial, fun io inputs => scanLoop_inv io inputs _ inv_initial, ?_⟩
  intro io s ts syms hs
  have hinv := processFrame_inv io s ts syms hs
  refine ⟨hinv, fun p => inv_mem_iff _ hinv p, fun p => hinv.1 p,
    fun p => processFrame_mem_mono io s ts syms p,
    fun p => processFrame_getD_mono io s ts syms p, ?_⟩
  obtain ⟨t, ht, _⟩ := processFrame_qr_data io s ts syms
  exact ⟨t, ht⟩

/-- Witness for C2 at the concrete first frame containing `symA`. -/
theorem C2_ledger_log_invariant_witness :
    (∃ t, (processFrame false initialScanner "t1" [symA]).state.qr_data =
      initialScanner.qr_data ++ t) ∧
    (dictMem (processFrame false initialScanner "t1" [symA]).state.captured_codes [65] = true ↔
      ∃ e ∈ (processFrame false initialScanner "t1" [symA]).state.qr_data,
        e.qr_content = [65]) := by
  have h := C2_ledger_log_invariant
  have h2 := h.2.2 false initialScanner "t1" [symA] h.1
  exact ⟨h2.2.2.2.2.2, h2.2.1 [65]⟩

/-- C4: `frame_count` is incremented exactly once per processed frame
regardless of decode outcome, the first processed frame is numbered 1 (events
of the first frame carry `frame_number = 1`), after a run from a fresh
scanner the counter equals the number of processed frames, and the logged
`frame_number` values are non-decreasing in log order. -/
theorem C4_monotone_frame_counter :
    (∀ io s ts syms, (processFrame io s ts syms).state.frame_count = s.frame_count + 1) ∧
    (∀ io inputs, (scanLoop io initialScanner inputs).1.frame_count = processedCount inputs) ∧
    (∀ io ts syms, ∀ e ∈ (processFrame io initialScanner ts syms).state.qr_data,
      e.frame_number = 1) ∧
    (∀ io inputs, List.Chain' (fun a b => a ≤ b)
      ((scanLoop io initialScanner inputs).1.qr_data.map Event.frame_number)) := by
  refine ⟨processFrame_frame_count, ?_, ?_, ?_⟩
  · intro io inputs
    rw [scanLoop_frame_count]
    simp [initialScanner]
  · intro io ts syms e he
    obtain ⟨t, ht, hf⟩ := processFrame_qr_data io initialScanner ts syms
    rw [ht] at he
    have he2 : e ∈ t := by simpa [initialScanner] using he
    simpa [initialScanner] using hf e he2
  · intro io inputs
    exact ((scanLoop_frameNumInv io inputs initialScanner frameNumInv_initial).1).chain'

/-- Witness for C4 at the concrete first frame containing `symA`. -/
theorem C4_monotone_frame_counter_witness :
    (processFrame false initialScanner "t1" [symA]).state.frame_count = 1 ∧
    ({ timestamp := "t1", frame_number := 1, qr_content := [65], qr_type := "QRCODE",
       status := "new", scan_count := 1 } : Event).frame_number = 1 := by
  have h := C4_monotone_frame_counter
  constructor
  · simpa [initialScanner] using h.1 false initialScanner "t1" [symA]
  · exact h.2.2.1 false "t1" [symA] _ (by decide)

/-- C5: a symbol whose payload bytes are not valid UTF-8 leaves the loop
accumulator untouched (zero events, ledger unchanged, not counted toward
`codes_in_frame`), and a frame containing such a symbol behaves exactly like
the same frame without it: same resulting state, same `codes_in_frame`, same
report trigger and report result; the remaining symbols and frames are
processed normally. -/
theorem C5_undecodable_symbol_is_skipped (io : Bool) (s : ScannerState) (ts : String)
    (pre post : List Sym) (b : Sym) (hb : utf8Decode b.data = none) :
    (∀ acc : ScannerState × Nat, processSym ts acc b = acc) ∧
    (processFrame io s ts (pre ++ b :: post)).state =
      (processFrame io s ts (pre ++ post)).state ∧
    (processFrame io s ts (pre ++ b :: post)).codes_in_frame =
      (processFrame io s ts (pre ++ post)).codes_in_frame ∧
    (processFrame io s ts (pre ++ b :: post)).saveCalled =
      (processFrame io s ts (pre ++ post)).saveCalled ∧
    (processFrame io s ts (pre ++ b :: post)).saveResult =
      (processFrame io s ts (pre ++ post)).saveResult := by
  have hstep : ∀ acc : ScannerState × Nat, processSym ts acc b = acc :=
    fun acc => processSym_none ts acc b hb
  have hfold : ∀ acc : ScannerState × Nat,
      (pre ++ b :: post).foldl (processSym ts) acc =
        (pre ++ post).foldl (processSym ts) acc := by
    intro acc
    rw [List.foldl_append, List.foldl_append, List.foldl_cons, hstep]
  have hstate : (processFrame io s ts (pre ++ b :: post)).state =
      (processFrame io s ts (pre ++ post)).state := by
    rw [processFrame_state, processFrame_state, hfold]
  have hcnt : (pre ++ b :: post).countP (fun o => (utf8Decode o.data).isSome) =
      (pre ++ post).countP (fun o => (utf8Decode o.data).isSome) := by
    simp [List.countP_append, List.countP_cons, hb]
  have hcodes : (processFrame io s ts (pre ++ b :: post)).codes_in_frame =
      (processFrame io s ts (pre ++ post)).codes_in_frame := by
    rw [processFrame_codes, processFrame_codes, hcnt]
  have hcall : (processFrame io s ts (pre ++ b :: post)).saveCalled =
      (processFrame io s ts (pre ++ post)).saveCalled := by
    rw [processFrame_saveCalled, processFrame_saveCalled, hcnt]
  have hres : (processFrame io s ts (pre ++ b :: post)).saveResult =
      (processFrame io s ts (pre ++ post)).saveResult := by
    rw [processFrame_saveResult, processFrame_saveResult, hcall, hstate]
  exact ⟨hstep, hstate, hcodes, hcall, hres⟩

/-- Witness for C5: dropping the undecodable `symBad` from a concrete frame
leaves the resulting state unchanged. -/
theorem C5_undecodable_symbol_is_skipped_witness :
    (processFrame false initialScanner "t1" [symA, symBad, symB]).state =
      (processFrame false initialScanner "t1" [symA, symB]).state := by
  have h := C5_undecodable_symbol_is_skipped false initialScanner "t1" [symA] [symB] symBad
    (by decide)
  exact h.2.1

/-- C3 counterexample: the claim quantifies over every event-log state, but at
the empty-log state the write yields no rows and no header at all —
`save_to_excel` lands in the error branch because the DataFrame built from an
empty list has no `status` column. -/
theorem C3_roundtrip_counterexample :
    (save_to_excel false initialScanner).2 = Except.error "KeyError: status" := by
  rfl

/-- C3 (amended): for every state with a nonempty event log, writing the
report yields one data row per event, in log order, carrying the event's
field values under the header columns timestamp, frame_number, qr_content,
qr_type, status, scan_count, and a row has the red fill applied exactly when
its status is `"duplicate"` (in particular no `"new"` row has it). -/
theorem C3_report_roundtrip (s : ScannerState) (hne : s.qr_data ≠ []) :
    (save_to_excel false s).2 = Except.ok (buildReport s.qr_data) ∧
    (buildReport s.qr_data).header =
      ["timestamp", "frame_number", "qr_content", "qr_type", "status", "scan_count"] ∧
    (buildReport s.qr_data).rows.map Prod.fst = s.qr_data ∧
    ∀ r ∈ (buildReport s.qr_data).rows, (r.2 = true ↔ r.1.status = "duplicate") := by
  have hcols : dfColumns s.qr_data =
      ["timestamp", "frame_number", "qr_content", "qr_type", "status", "scan_count"] := by
    unfold dfColumns
    rw [if_neg hne]
  refine ⟨?_, ?_, ?_, ?_⟩
  · unfold save_to_excel
    rw [hcols, if_pos (by decide : "status" ∈
      ["timestamp", "frame_number", "qr_content", "qr_type", "status", "scan_count"])]
    rfl
  · unfold buildReport
    rw [hcols]
  · unfold buildReport
    simp only [List.map_map]
    have hcomp : (Prod.fst ∘ fun (e : Event) => (e, e.status == "duplicate")) = fun e => e := rfl
    rw [hcomp, List.map_id']
  · intro r hr
    simp only [buildReport, List.mem_map] at hr
    obtain ⟨e, _, rfl⟩ := hr
    exact beq_iff_eq

/-- Witness for C3 (amended) at the concrete nonempty state after one frame
containing `symA`. -/
theorem C3_report_roundtrip_witness :
    (save_to_excel false stateAfterA).2 = Except.ok (buildReport stateAfterA.qr_data) := by
  exact (C3_report_roundtrip stateAfterA (by decide)).1

/-- C6: `save_to_excel` never mutates the scanner state — `qr_data`,
`captured_codes` and `frame_count` are identical before and after the call on
both the success path and the error path; every failure is caught (the call
returns normally, with an error value), and the rest of the run is entirely
unaffected by report-write failures. -/
theorem C6_save_leaves_state_unchanged :
    (∀ io s, (save_to_excel io s).1 = s ∧
      (save_to_excel io s).1.qr_data = s.qr_data ∧
      (save_to_excel io s).1.captured_codes = s.captured_codes ∧
      (save_to_excel io s).1.frame_count = s.frame_count) ∧
    (∀ io s, (∃ r, (save_to_excel io s).2 = Except.ok r) ∨
      (∃ m, (save_to_excel io s).2 = Except.error m)) ∧
    (∀ io io2 s inputs, scanLoop io s inputs = scanLoop io2 s inputs) := by
  refine ⟨?_, ?_, ?_⟩
  · intro io s
    have h1 : (save_to_excel io s).1 = s := by
      unfold save_to_excel
      split
      · split <;> rfl
      · rfl
    exact ⟨h1, by rw [h1], by rw [h1], by rw [h1]⟩
  · intro io s
    cases h : (save_to_excel io s).2 with
    | ok r => exact Or.inl ⟨r, rfl⟩
    | error m => exact Or.inr ⟨m, rfl⟩
  · intro io io2 s inputs
    exact scanLoop_io_independent io io2 inputs s

/-- C7: on every exit path of `start_scanning` — camera-open failure, stream
end, operator quit, or an exception raised during the loop — the `finally`
block runs: the capture handle (assigned before the `isOpened` check, hence
always present) is released, and `save_to_excel` is invoked exactly once as
the final report write, applied to the state the loop ended with. -/
theorem C7_cleanup_runs_on_every_exit (io cameraOpens : Bool) (inputs : List FrameInput) :
    (start_scanning io cameraOpens inputs).released = true ∧
    (start_scanning io cameraOpens inputs).cleanupSaves = 1 ∧
    (start_scanning io cameraOpens inputs).finalReport =
      (save_to_excel io (start_scanning io cameraOpens inputs).state).2 ∧
    (cameraOpens = false →
      (start_scanning io cameraOpens inputs).exit = ExitReason.cameraFail ∧
      (start_scanning io cameraOpens inputs).state = initialScanner) := by
  unfold start_scanning
  cases cameraOpens <;> simp

/-- Witness for C7 on the camera-open-failure path. -/
theorem C7_cleanup_runs_on_every_exit_witness :
    (start_scanning false false []).released = true ∧
    (start_scanning false false []).exit = ExitReason.cameraFail := by
  have h := C7_cleanup_runs_on_every_exit false false []
  exact ⟨h.1, (h.2.2.2 rfl).1⟩

/-- C8 counterexample: with payload A already in the ledger, a frame
containing only that payload has one decoded symbol and zero newly-seen
symbols, yet `process_frame` invokes the report writer — so the code cannot
realize the `only-new-symbols` policy variant, and it offers no configuration
to select one (its constructor takes only a camera index and a file path). -/
theorem C8_trigger_policy_counterexample :
    (processFrame false stateAfterA "t2" [symA]).saveCalled = true ∧
    specReportTrigger ReportTriggerPolicy.onlyNewSymbols stateAfterA [symA] = false := by
  constructor
  · decide
  · decide

/-- C8 (amended): `process_frame` invokes `save_to_excel` synchronously,
within the same call and hence before the next frame, exactly when the frame
produced at least one successfully decoded symbol; the trigger policy is
fixed to any-decoded-symbol and is not configurable. -/
theorem C8_report_trigger_any_decoded (io : Bool) (s : ScannerState) (ts : String)
    (syms : List Sym) :
    (processFrame io s ts syms).saveCalled =
      specReportTrigger ReportTriggerPolicy.anyDecodedSymbol s syms ∧
    ((processFrame io s ts syms).saveCalled = true →
      (processFrame io s ts syms).saveResult =
        some (save_to_excel io (processFrame io s ts syms).state).2) ∧
    ((processFrame io s ts syms).saveCalled = false →
      (processFrame io s ts syms).saveResult = none) := by
  refine ⟨?_, ?_, ?_⟩
  · rw [processFrame_saveCalled]
    rfl
  · intro h
    rw [processFrame_saveResult, h]
    rfl
  · intro h
    rw [processFrame_saveResult, h]
    rfl

/-- Witness for C8 (amended) at a concrete frame with one decoded symbol. -/
theorem C8_report_trigger_any_decoded_witness :
    (processFrame false initialScanner "t1" [symA]).saveCalled =
      specReportTrigger ReportTriggerPolicy.anyDecodedSymbol initialScanner [symA] ∧
    (processFrame false initialScanner "t1" [symA]).saveResult =
      some (save_to_excel false (processFrame false initialScanner "t1" [symA]).state).2 := by
  have h := C8_report_trigger_any_decoded false initialScanner "t1" [symA]
  exact ⟨h.1, h.2.1 (by decide)⟩

/-- C9: `process_frame` inserts every successfully decoded payload into
`captured_codes` before calling `draw_qr_info`, so the overlay membership
test holds for every symbol decoded in the frame: every successfully decoded
symbol with a nonempty polygon — including one seen for the first time in the
run — is drawn red, and no symbol of the frame is ever drawn green. -/
theorem C9_overlay_never_green (io : Bool) (s : ScannerState) (ts : String) (syms : List Sym)
    (i : Nat) (o : Sym) (ho : syms[i]? = some o) :
    ((utf8Decode o.data).isSome = true → o.polygon ≠ [] →
      (processFrame io s ts syms).colors[i]? = some (some Color.red)) ∧
    (processFrame io s ts syms).colors[i]? ≠ some (some Color.green) := by
  have hmem : o ∈ syms := List.getElem?_mem ho
  have hcol : (processFrame io s ts syms).colors[i]? =
      some (drawColor (processFrame io s ts syms).state o) := by
    rw [processFrame_colors, List.getElem?_map, ho]
    rfl
  constructor
  · intro hdec hpoly
    obtain ⟨p, hp⟩ := Option.isSome_iff_exists.mp hdec
    have hm := processFrame_mem_of_decoded io s ts syms o p hmem hp
    rw [hcol]
    simp [drawColor, hpoly, hp, hm]
  · rw [hcol]
    by_cases hpoly : o.polygon = []
    · simp [drawColor, hpoly]
    · cases hdec : utf8Decode o.data with
      | none => simp [drawColor, hpoly, hdec]
      | some p =>
        have hm := processFrame_mem_of_decoded io s ts syms o p hmem hdec
        simp [drawColor, hpoly, hdec, hm]

/-- Witness for C9: the very first symbol ever seen is already drawn red. -/
theorem C9_overlay_never_green_witness :
    (processFrame false initialScanner "t1" [symA]).colors[0]? = some (some Color.red) := by
  have h := C9_overlay_never_green false initialScanner "t1" [symA] 0 symA (by decide)
  exact h.1 (by decide) (by decide)

/-- C10: `save_to_excel` on an empty event log takes the error branch — the
DataFrame built from an empty list has no `status` column — so the final
unconditional report write of a run in which no symbol ever successfully
decoded produces no well-formed report. -/
theorem C10_empty_run_final_save_fails :
    (∀ io s, s.qr_data = [] →
      (save_to_excel io s).2 = Except.error "KeyError: status") ∧
    (∀ cameraOpens inputs, (∀ f ∈ inputs, ∀ o ∈ f.syms, utf8Decode o.data = none) →
      (start_scanning false cameraOpens inputs).finalReport =
        Except.error "KeyError: status") := by
  have hbase : ∀ io (s : ScannerState), s.qr_data = [] →
      (save_to_excel io s).2 = Except.error "KeyError: status" := by
    intro io s h
    have hcols : dfColumns s.qr_data = [] := by
      unfold dfColumns
      rw [if_pos h]
    unfold save_to_excel
    rw [hcols, if_neg (List.not_mem_nil _)]
  refine ⟨hbase, ?_⟩
  intro cam inputs hnone
  have hqr : (start_scanning false cam inputs).state.qr_data = [] := by
    cases cam
    · rfl
    · show (scanLoop false initialScanner inputs).1.qr_data = []
      rw [scanLoop_undecodable false inputs hnone initialScanner]
      rfl
  have hfr : (start_scanning false cam inputs).finalReport =
      (save_to_excel false (start_scanning false cam inputs).state).2 := rfl
  rw [hfr]
  exact hbase false _ hqr

/-- Witness for C10: the empty-log save fails, and so does the final save of
a concrete run whose only frame contains only the undecodable `symBad`. -/
theorem C10_empty_run_final_save_fails_witness :
    (save_to_excel true initialScanner).2 = Except.error "KeyError: status" ∧
    (start_scanning false true [⟨[symBad], "t1", false, false⟩]).finalReport =
      Except.error "KeyError: status" := by
  have h := C10_empty_run_final_save_fails
  refine ⟨h.1 true initialScanner rfl, h.2 true _ ?_⟩
  decide

end QRScanner
